import Mathlib

/-!
Verification development for the real-time match-session engine of the
YlemProject repository (src/game-server/server.js).

The definitions below are a shallow embedding of the escrow, scoring,
queueing, pause/resume and session-teardown logic of server.js.  Machine
integers are modelled as Nat; the JS idiom Math.max(0, a - b) coincides
with truncated Nat subtraction, and missing object keys read as 0 via
the (x || 0) idiom, which the total function model captures directly.
-/

namespace Ylem

/-- The ten item kinds of ITEM_ORDER in server.js. -/
inductive Item
  | silver_coin | gold_coin | opal | amethyst | moonstone
  | ruby | sapphire | diamond | faded_page | cursed_amulet
deriving DecidableEq, Repr

/-- ITEM_ORDER from server.js: the fixed enumeration of all item kinds. -/
def itemList : List Item :=
  [.silver_coin, .gold_coin, .opal, .amethyst, .moonstone,
   .ruby, .sapphire, .diamond, .faded_page, .cursed_amulet]

/-- A wager map: item kind to non-negative count (missing key reads 0). -/
def Wager := Item → Nat

/-- An inventory, same shape as a wager map. -/
def Inv := Item → Nat

/-- The external inventory store: player name to inventory, absent when the
name is not registered (getPlayerData returns null). -/
def Store := String → Option Inv

/-- The all-zero wager map (emptyWager in startGame). -/
def zeroWager : Wager := fun _ => 0

/-- Clamped debit of a wager from an inventory, modelling
Math.max(0, inventory[item] - wager[item]) in handleConfirmWager. -/
def clampDebit (inv : Inv) (w : Wager) : Inv := fun it => inv it - w it

/-- Credit of a wager map onto an inventory, modelling
inventory[item] = (inventory[item] || 0) + (wager[item] || 0). -/
def creditInv (inv : Inv) (w : Wager) : Inv := fun it => inv it + w it

/-- Debit a wager from the named player in the store; a no-op when the name
is not registered (the if (playerData) guard in handleConfirmWager). -/
def storeDebit (st : Store) (n : String) (w : Wager) : Store :=
  match st n with
  | none => st
  | some inv => fun m => if m = n then some (clampDebit inv w) else st m

/-- Credit a wager to the named player in the store; a no-op when the name
is not registered (the if (playerData) guards on every credit path). -/
def storeCredit (st : Store) (n : String) (w : Wager) : Store :=
  match st n with
  | none => st
  | some inv => fun m => if m = n then some (creditInv inv w) else st m

/-! ## Scoring engine (getWordScore, calculateResults, shared words) -/

/-- SCORE_TABLE = { 3: 1, 4: 1, 5: 2, 6: 3, 7: 5 }, with the (|| 0)
fallback for lengths outside the table. -/
def SCORE_TABLE : Nat → Nat
  | 3 => 1
  | 4 => 1
  | 5 => 2
  | 6 => 3
  | 7 => 5
  | _ => 0

/-- getWordScore(len): 11 for length at least 8, else the table value. -/
def getWordScore (len : Nat) : Nat :=
  if 8 ≤ len then 11 else SCORE_TABLE len

/-- One entry of the scored word list built by calculateResults. -/
structure ScoredWord where
  word : String
  points : Nat
  shared : Bool
deriving DecidableEq, Repr

/-- Per-player result of calculateResults. -/
structure PlayerResult where
  words : List ScoredWord
  score : Nat
  wordCount : Nat
deriving DecidableEq, Repr

/-- The shared-word set of finishGame:
new Set(p1Words.filter(w => p2Words.includes(w))), kept as a list whose
membership is the set membership. -/
def sharedWords (l1 l2 : List String) : List String :=
  l1.filter (fun w => l2.contains w)

/-- The JS sort comparator (b.word.length - a.word.length) ||
a.word.localeCompare(b.word): descending length, ties alphabetical. -/
def swLE (x y : ScoredWord) : Bool :=
  y.word.length < x.word.length ||
    (x.word.length == y.word.length && !(decide (y.word < x.word)))

/-- Stable insertion into a list sorted by swLE. -/
def insertSW (x : ScoredWord) : List ScoredWord → List ScoredWord
  | [] => [x]
  | y :: l => if swLE x y then x :: y :: l else y :: insertSW x l

/-- Stable sort by swLE, modelling scoredWords.sort in calculateResults. -/
def sortSW : List ScoredWord → List ScoredWord
  | [] => []
  | x :: l => insertSW x (sortSW l)

/-- calculateResults(words, sharedWords): a shared word scores 0, any other
word scores getWordScore of its length; the total is the sum; the output
list is sorted by descending length then alphabetically. -/
def calculateResults (words : List String) (shared : List String) : PlayerResult :=
  let scoredWords := words.map (fun w =>
    { word := w
      points := if shared.contains w then 0 else getWordScore w.length
      shared := shared.contains w : ScoredWord })
  { words := sortSW scoredWords
    score := (scoredWords.map (fun s => s.points)).sum
    wordCount := words.length }

/-- Accumulator pass of the JS [...new Set(list)] idiom: keep the first
occurrence of each element, in order. -/
def jsSetDedupAux (seen : List String) : List String → List String
  | [] => []
  | a :: l =>
      if seen.contains a then jsSetDedupAux seen l
      else a :: jsSetDedupAux (a :: seen) l

/-- The JS [...new Set(list)] idiom: deduplicate keeping first occurrences. -/
def jsSetDedup (l : List String) : List String := jsSetDedupAux [] l

/-- The JS w.toUpperCase(): uppercase character by character. -/
def jsToUpper (s : String) : String := String.mk (s.data.map Char.toUpper)

/-- Word-list normalisation of handleSubmitWords:
[...new Set(words.map(w => w.toUpperCase()))]. -/
def dedupUpper (ws : List String) : List String :=
  jsSetDedup (ws.map jsToUpper)

/-! ## Game session state (the game object built by startGame) -/

/-- One of the two player slots of a game.  The slot index type is Bool:
false is players[0] and true is players[1], so 1 - playerIndex is Bool.not. -/
structure PlayerSlot where
  id : String
  name : String
  words : Option (List String)
  connected : Bool
  wager : Wager
  wagerConfirmed : Bool
  ready : Bool

/-- The game.status strings of server.js. -/
inductive Status
  | wager | ready | countdown | active | finished
deriving DecidableEq, Repr

/-- The game object of startGame.  Timestamps are Nat milliseconds; endTime
is null until the countdown completes. -/
structure Game where
  players : Bool → PlayerSlot
  status : Status
  wagerMode : Bool
  endTime : Option Nat
  paused : Bool
  pausedAt : Option Nat
  pausedTimeRemaining : Option Nat

/-- Replace one slot of the two-slot player array. -/
def updSlot (g : Game) (sl : Bool) (f : PlayerSlot → PlayerSlot) : Game :=
  { g with players := fun b => if b = sl then f (g.players b) else g.players b }

/-- GAME_TIME = 180 seconds. -/
def GAME_TIME : Nat := 180

/-- RECONNECT_GRACE_PERIOD = 30000 milliseconds. -/
def RECONNECT_GRACE_PERIOD : Nat := 30000

/-- The 3-tick countdown length of startCountdownPhase and resumeGame. -/
def countdownSeconds : Nat := 3

/-! ## Wager handlers (handleUpdateWager, handleConfirmWager,
handleLeaveWager, handleCancelReady) -/

/-- handleUpdateWager: only in the wager phase, set the slot wager. -/
def handleUpdateWager (g : Game) (sl : Bool) (w : Wager) : Game :=
  if g.status = Status.wager then updSlot g sl (fun p => { p with wager := w })
  else g

/-- handleConfirmWager: only in the wager phase.  Sets the slot wager to the
message wager and marks the slot confirmed, then debits the wager from the
player inventory with per-item clamping at zero (Math.max(0, holdings -
wagered)); when both slots are confirmed the status moves to ready. -/
def handleConfirmWager (st : Store) (g : Game) (sl : Bool) (w : Wager) :
    Store × Game :=
  if g.status = Status.wager then
    let g1 := updSlot g sl (fun p => { p with wager := w, wagerConfirmed := true })
    let st1 := storeDebit st ((g.players sl).name) w
    let g2 :=
      if (g1.players false).wagerConfirmed ∧ (g1.players true).wagerConfirmed then
        { g1 with status := Status.ready }
      else g1
    (st1, g2)
  else (st, g)

/-- The refund loop shared by handleLeaveWager and handleCancelReady:
for each slot in order, if it is wager-confirmed, credit its wager map back
to its owner (skipped when the name is unregistered). -/
def storeRefundConfirmed (st : Store) (g : Game) : Store :=
  let st1 :=
    if (g.players false).wagerConfirmed then
      storeCredit st ((g.players false).name) ((g.players false).wager)
    else st
  if (g.players true).wagerConfirmed then
    storeCredit st1 ((g.players true).name) ((g.players true).wager)
  else st1

/-- Outbound messages relevant to the claims. -/
inductive Msg
  | searching
  | alreadySearching
  | alreadyInGame
  | opponentCancelledWager
  | gameEnd
deriving DecidableEq, Repr

/-- Deletion of both playerToGame routing entries of a game
(game.players.forEach(p => playerToGame.delete(p.id))). -/
def dropRouting (routing : List String) (g : Game) : List String :=
  routing.filter (fun x =>
    x ≠ (g.players false).id ∧ x ≠ (g.players true).id)

/-- handleLeaveWager, given that the sender occupies slot sl of an existing
game: no phase check at all; refund every confirmed wager to its owner,
notify the opponent (when connected) with opponent_cancelled_wager, and
delete the game together with both playerToGame routing entries.  Returns
the new store, the new session slot (none = deleted), the surviving routing
entries, and the messages sent, tagged by recipient slot. -/
def handleLeaveWager (st : Store) (g : Game) (sl : Bool)
    (routing : List String) :
    Store × Option Game × List String × List (Bool × Msg) :=
  (storeRefundConfirmed st g, none, dropRouting routing g,
    if (g.players !sl).connected then [(!sl, Msg.opponentCancelledWager)] else [])

/-- handleCancelReady: identical escrow effect to handleLeaveWager (refund
all confirmed wagers, notify, tear the session down); also phase-unchecked. -/
def handleCancelReady (st : Store) (g : Game) (sl : Bool)
    (routing : List String) :
    Store × Option Game × List String × List (Bool × Msg) :=
  handleLeaveWager st g sl routing

/-! ## Game end (finishGame) -/

/-- The wagerResult object of the game_end message. -/
structure WagerOutcome where
  winner : Option String
  pot : Wager
  returned : Bool

/-- Everything finishGame computes before cleanup: both scored results, the
winner, the pot and the wager settlement record. -/
structure FinishInfo where
  r0 : PlayerResult
  r1 : PlayerResult
  sharedList : List String
  winnerName : Option String
  winnerIx : Option Bool
  pot : Wager
  hasWager : Bool
  wagerResult : Option WagerOutcome

/-- The word list finishGame scores for one slot:
game.players[i].words || []. -/
def wordsOf (g : Game) (b : Bool) : List String :=
  (g.players b).words.getD []

/-- The shared-word set finishGame computes from both word lists. -/
def sharedOf (g : Game) : List String :=
  sharedWords (wordsOf g false) (wordsOf g true)

/-- The scored result finishGame computes for one slot. -/
def resultOf (g : Game) (b : Bool) : PlayerResult :=
  calculateResults (wordsOf g b) (sharedOf g)

/-- The winner determination of finishGame: the slot with the strictly
greater total score, none on equal totals. -/
def winnerIxOf (g : Game) : Option Bool :=
  if (resultOf g true).score < (resultOf g false).score then some false
  else if (resultOf g false).score < (resultOf g true).score then some true
  else none

/-- The pot: the per-item-kind sum of both wager maps. -/
def potOf (g : Game) : Wager := fun it =>
  (g.players false).wager it + (g.players true).wager it

/-- hasWager: ITEM_ORDER.some(item => pot[item] > 0). -/
def hasWagerOf (g : Game) : Bool :=
  itemList.any (fun it => decide (0 < potOf g it))

/-- The scoring and settlement core of finishGame, for a game whose status
is not yet finished.  Word lists default to [] when a player never
submitted; the winner needs a strictly greater score; the pot is the
per-item sum of both wager maps; with a wager and a winner the whole pot is
credited to the winner, with a wager and no winner each player is credited
their own wager map back (each credit skipped for unregistered names). -/
def finishCore (st : Store) (g : Game) : Store × FinishInfo :=
  let winnerName := (winnerIxOf g).map (fun i => (g.players i).name)
  let mkInfo : Bool → Option WagerOutcome → FinishInfo := fun hw wr =>
    { r0 := resultOf g false, r1 := resultOf g true, sharedList := sharedOf g
      winnerName := winnerName, winnerIx := winnerIxOf g, pot := potOf g
      hasWager := hw, wagerResult := wr }
  match hasWagerOf g, winnerIxOf g with
  | true, some i =>
      (storeCredit st ((g.players i).name) (potOf g),
       mkInfo true (some { winner := some ((g.players i).name), pot := potOf g
                           returned := false }))
  | true, none =>
      (storeCredit
         (storeCredit st ((g.players false).name) ((g.players false).wager))
         ((g.players true).name) ((g.players true).wager),
       mkInfo true (some { winner := none, pot := potOf g, returned := true }))
  | false, _ =>
      (st, mkInfo false none)

/-- Slot-indexed access to the two results of a FinishInfo. -/
def FinishInfo.r (fi : FinishInfo) (b : Bool) : PlayerResult :=
  if b then fi.r1 else fi.r0

/-- finishGame followed by cleanupGame: a no-op when the status is already
finished, otherwise settle and delete the session and its routing. -/
def finishGame (st : Store) (g : Game) (routing : List String) :
    Store × Option Game × List String × Option FinishInfo :=
  if g.status = Status.finished then (st, some g, routing, none)
  else
    let r := finishCore st g
    (r.1, none, dropRouting routing g, some r.2)

/-- handleSubmitWords for a player routed to an existing game: stores the
deduplicated, uppercased list unconditionally (no once-only guard), and
finishes the game when both slots now hold a submission. -/
def handleSubmitWords (st : Store) (g : Game) (sl : Bool) (ws : List String)
    (routing : List String) :
    Store × Option Game × List String × Option FinishInfo :=
  let g1 := updSlot g sl (fun p => { p with words := some (dedupUpper ws) })
  if (g1.players false).words.isSome ∧ (g1.players true).words.isSome then
    finishGame st g1 routing
  else (st, some g1, routing, none)

/-- handlePlayerReady: only in the ready phase; mark the slot ready and
start the countdown when both slots are ready. -/
def handlePlayerReady (g : Game) (sl : Bool) : Game :=
  if g.status = Status.ready then
    let g1 := updSlot g sl (fun p => { p with ready := true })
    if (g1.players false).ready ∧ (g1.players true).ready then
      { g1 with status := Status.countdown }
    else g1
  else g

/-- The countdown completion of startCountdownPhase, firing at time now
(milliseconds): status moves to active and the end timestamp is set to
now + GAME_TIME seconds. -/
def countdownComplete (g : Game) (now : Nat) : Game :=
  if g.status = Status.countdown then
    { g with status := Status.active, endTime := some (now + GAME_TIME * 1000) }
  else g

/-- The delay, in milliseconds after entry to the countdown phase, at which
the stuck-match guard timer of startCountdownPhase fires:
(GAME_TIME + 15) * 1000 + (countdownSeconds * 1000). -/
def stuckGuardDelayMs : Nat :=
  (GAME_TIME + 15) * 1000 + countdownSeconds * 1000

/-- The stuck-match guard firing: force-finish unless already finished. -/
def stuckGuardFire (st : Store) (g : Game) (routing : List String) :
    Store × Option Game × List String × Option FinishInfo :=
  if g.status ≠ Status.finished then finishGame st g routing
  else (st, some g, routing, none)

/-! ## Pause, reconnect and resume -/

/-- pauseGame at time now: a no-op when already paused, else record the
pause snapshot Math.max(0, Math.floor((endTime - now) / 1000)), which for
Nat timestamps is truncated subtraction then division. -/
def pauseGame (g : Game) (now : Nat) : Game :=
  if g.paused then g
  else
    { g with paused := true, pausedAt := some now
             pausedTimeRemaining := some ((g.endTime.getD 0 - now) / 1000) }

/-- The timeRemaining field of the reconnect_success message in
handleReconnect: the pause snapshot when the game is paused with a recorded
snapshot, else the live remaining time. -/
def reconnectTimeRemaining (g : Game) (now : Nat) : Nat :=
  if g.paused ∧ g.pausedTimeRemaining.isSome then g.pausedTimeRemaining.getD 0
  else (g.endTime.getD 0 - now) / 1000

/-- The resume completion of resumeGame, firing at time now after the
3-tick countdown: only for a paused game, the end timestamp becomes
now + pausedTimeRemaining seconds and the pause fields are cleared. -/
def resumeComplete (g : Game) (now : Nat) : Game :=
  if g.paused then
    { g with endTime := some (now + g.pausedTimeRemaining.getD 0 * 1000)
             paused := false, pausedAt := none, pausedTimeRemaining := none }
  else g

/-- The timeRemaining field of the game_resumed message: the snapshot that
resumeGame captured from pausedTimeRemaining. -/
def resumedTimeRemaining (g : Game) : Nat :=
  g.pausedTimeRemaining.getD 0

/-- Live remaining whole seconds at time now. -/
def liveRemaining (g : Game) (now : Nat) : Nat :=
  (g.endTime.getD 0 - now) / 1000

/-- The grace-period expiry callback of handleDisconnect: notify the
opponent with opponent_left, then finishGame (the disconnect record is
dropped; scoring still reads the live slot words, with a missing
submission defaulting to the empty list inside finishCore). -/
def graceExpire (st : Store) (g : Game) (routing : List String) :
    Store × Option Game × List String × Option FinishInfo :=
  finishGame st g routing

/-! ## Match queue (handleFindGame) -/

/-- The global queueing state: the two FIFO wait queues (socket identity is
modelled by player id) and the key set of the playerToGame routing map. -/
structure QueueState where
  casual : List String
  wager : List String
  inSession : List String

/-- The visible outcome of a find_game request. -/
inductive FindOutcome
  | alreadySearching
  | alreadyInGame
  | matched (opponentId : String)
  | searching
deriving DecidableEq, Repr

/-- handleFindGame: reject when the requester already waits in either queue
(error Already searching) or is routed to a game (error Already in game);
otherwise pop the head of the target-mode queue and start a game with it,
or append the requester to that queue and acknowledge with searching. -/
def handleFindGame (qs : QueueState) (pid : String) (wagerMode : Bool) :
    FindOutcome × QueueState :=
  if pid ∈ qs.casual ∨ pid ∈ qs.wager then (FindOutcome.alreadySearching, qs)
  else if pid ∈ qs.inSession then (FindOutcome.alreadyInGame, qs)
  else
    match (if wagerMode then qs.wager else qs.casual) with
    | opp :: rest =>
        (FindOutcome.matched opp,
         if wagerMode then
           { qs with wager := rest, inSession := pid :: opp :: qs.inSession }
         else
           { qs with casual := rest, inSession := pid :: opp :: qs.inSession })
    | [] =>
        (FindOutcome.searching,
         if wagerMode then { qs with wager := qs.wager ++ [pid] }
         else { qs with casual := qs.casual ++ [pid] })

/-! ## Session lifecycle as a transition system

One session together with the external inventory store and its routing
entries, driven by the inbound messages and timer firings that touch the
escrow.  Every transition is the corresponding handler above; when the
session has already been deleted every event is a no-op (activeGames.get
fails and the handler returns). -/

/-- Store, the session slot of activeGames, and its routing entries. -/
structure SState where
  store : Store
  game : Option Game
  routing : List String

/-- The escrow-relevant inbound events and timer firings. -/
inductive Ev
  | updateWager (sl : Bool) (w : Wager)
  | confirmWager (sl : Bool) (w : Wager)
  | leaveWager (sl : Bool)
  | cancelReady (sl : Bool)
  | playerReady (sl : Bool)
  | countdownDone (now : Nat)
  | submitWords (sl : Bool) (ws : List String)
  | forceFinish

/-- One step of the session lifecycle. -/
def step (s : SState) (ev : Ev) : SState :=
  match s.game with
  | none => s
  | some g =>
    match ev with
    | .updateWager sl w => { s with game := some (handleUpdateWager g sl w) }
    | .confirmWager sl w =>
        let r := handleConfirmWager s.store g sl w
        { store := r.1, game := some r.2, routing := s.routing }
    | .leaveWager sl =>
        let r := handleLeaveWager s.store g sl s.routing
        { store := r.1, game := r.2.1, routing := r.2.2.1 }
    | .cancelReady sl =>
        let r := handleCancelReady s.store g sl s.routing
        { store := r.1, game := r.2.1, routing := r.2.2.1 }
    | .playerReady sl => { s with game := some (handlePlayerReady g sl) }
    | .countdownDone now => { s with game := some (countdownComplete g now) }
    | .submitWords sl ws =>
        let r := handleSubmitWords s.store g sl ws s.routing
        { store := r.1, game := r.2.1, routing := r.2.2.1 }
    | .forceFinish =>
        let r := finishGame s.store g s.routing
        { store := r.1, game := r.2.1, routing := r.2.2.1 }

/-- Run a list of events. -/
def steps (s : SState) : List Ev → SState
  | [] => s
  | e :: es => steps (step s e) es

/-- The side conditions under which the escrow bookkeeping of server.js is
sound; each excludes a concrete failure mode of the code:
confirm only while unconfirmed (re-confirmation debits twice), confirm only
within current holdings (the debit clamps at zero), update only while
unconfirmed (updating after confirming desynchronises the debited map), and
settlement only reached while every unconfirmed wager map is zero
(finishGame pays unconfirmed wagers into the pot and refunds them on a
tie even though they were never debited). -/
def Good (s : SState) (ev : Ev) : Prop :=
  match s.game with
  | none => True
  | some g =>
    match ev with
    | .updateWager sl _ =>
        g.status = Status.wager → (g.players sl).wagerConfirmed = false
    | .confirmWager sl w =>
        g.status = Status.wager →
          (g.players sl).wagerConfirmed = false ∧
          ∀ inv, s.store ((g.players sl).name) = some inv →
            ∀ it, w it ≤ inv it
    | .submitWords _ _ =>
        ∀ b, (g.players b).wagerConfirmed = false → (g.players b).wager = zeroWager
    | .forceFinish =>
        ∀ b, (g.players b).wagerConfirmed = false → (g.players b).wager = zeroWager
    | _ => True

/-- A whole event list satisfies Good step by step. -/
def GoodTrace : SState → List Ev → Prop
  | _, [] => True
  | s, e :: es => Good s e ∧ GoodTrace (step s e) es

/-! ## The escrow invariant -/

/-- The total wager currently confirmed (and hence debited) against a given
store name by the two slots. -/
def confSum (g : Game) (n : String) : Item → Nat := fun it =>
  (if (g.players false).wagerConfirmed ∧ n = (g.players false).name then
     (g.players false).wager it else 0) +
  (if (g.players true).wagerConfirmed ∧ n = (g.players true).name then
     (g.players true).wager it else 0)

/-- The store an alive session should see: the initial store with every
confirmed wager debited exactly. -/
def aliveStore (st0 : Store) (g : Game) : Store := fun n =>
  (st0 n).map (fun inv it => inv it - confSum g n it)

/-- The confirmed debits never exceed the initial holdings (so the clamped
debit was exact and a later credit restores exactly). -/
def Exact (st0 : Store) (g : Game) : Prop :=
  ∀ n inv, st0 n = some inv → ∀ it, confSum g n it ≤ inv it

/-- A bounded transfer of a wager map from one registered name to another;
when both names coincide this is the identity. -/
def moveWager (st0 : Store) (src dst : String) (w : Wager) : Store := fun n =>
  (st0 n).map (fun inv it =>
    inv it - (if n = src then w it else 0) + (if n = dst then w it else 0))

/-- What the store may look like once the session has been destroyed:
either every confirmed wager went back to its owner (refund or tie, net
identity), or one wager map moved from the loser to the winner and nothing
else changed. -/
def DeadOK (st0 : Store) (g0 : Game) (st : Store) : Prop :=
  st = st0 ∨
  ∃ (i : Bool) (w : Wager),
    (∀ inv, st0 ((g0.players !i).name) = some inv → ∀ it, w it ≤ inv it) ∧
    st = moveWager st0 ((g0.players !i).name) ((g0.players i).name) w

/-- The inductive invariant: an alive session carries the initial names,
sees exactly the initial store minus its confirmed debits, and those debits
fit the initial holdings; a destroyed session left the store settled. -/
def EscInv (st0 : Store) (g0 : Game) (s : SState) : Prop :=
  match s.game with
  | some g =>
      (∀ b, (g.players b).name = (g0.players b).name) ∧
      s.store = aliveStore st0 g ∧ Exact st0 g
  | none => DeadOK st0 g0 s.store

/-! ## Helper lemmas -/

lemma optMapId {o : Option Inv} {f : Inv → Inv} (he : ∀ inv it, f inv it = inv it) :
    o.map f = o := by
  cases o with
  | none => rfl
  | some a => exact congrArg some (funext fun it => he a it)

lemma updSlot_players (g : Game) (sl : Bool) (f : PlayerSlot → PlayerSlot)
    (b : Bool) :
    (updSlot g sl f).players b = if b = sl then f (g.players b) else g.players b :=
  rfl

lemma storeCredit_eval (st : Store) (n : String) (w : Wager) :
    storeCredit st n w
      = fun m => (st m).map (fun inv it => inv it + (if m = n then w it else 0)) := by
  funext m
  unfold storeCredit
  cases hn : st n with
  | none =>
      by_cases hm : m = n
      · subst hm; simp [hn]
      · exact (optMapId (fun inv it => by simp [hm])).symm
  | some inv =>
      by_cases hm : m = n
      · subst hm
        simp only [hn, if_pos rfl, Option.map_some']
        exact congrArg some (funext fun it => by simp [creditInv])
      · simp only [if_neg hm]
        exact (optMapId (fun inv it => by simp [hm])).symm

lemma storeDebit_eval (st : Store) (n : String) (w : Wager) :
    storeDebit st n w
      = fun m => (st m).map (fun inv it => inv it - (if m = n then w it else 0)) := by
  funext m
  unfold storeDebit
  cases hn : st n with
  | none =>
      by_cases hm : m = n
      · subst hm; simp [hn]
      · exact (optMapId (fun inv it => by simp [hm])).symm
  | some inv =>
      by_cases hm : m = n
      · subst hm
        simp only [hn, if_pos rfl, Option.map_some']
        exact congrArg some (funext fun it => by simp [clampDebit])
      · simp only [if_neg hm]
        exact (optMapId (fun inv it => by simp [hm])).symm

/-- Pointwise congruence for Option.map on inventories. -/
lemma optMapCongr {o : Option Inv} {f h : Inv → Inv}
    (he : ∀ inv it, f inv it = h inv it) : o.map f = o.map h := by
  cases o with
  | none => rfl
  | some a => exact congrArg some (funext fun it => he a it)

/-- The refund loop credits, at every store name, exactly the sum of the
confirmed wagers owned by that name. -/
lemma storeRefundConfirmed_eq (st : Store) (g : Game) :
    storeRefundConfirmed st g
      = fun n => (st n).map (fun inv it => inv it + confSum g n it) := by
  funext n
  by_cases c0 : (g.players false).wagerConfirmed = true <;>
  by_cases c1 : (g.players true).wagerConfirmed = true <;>
    simp only [storeRefundConfirmed, confSum, c0, c1, if_true, if_false,
      Bool.not_eq_true, storeCredit_eval, Option.map_map, true_and, false_and,
      if_neg, ite_false, ite_true]
  · exact optMapCongr (fun inv it => by simp only [Function.comp]; split_ifs <;> omega)
  · simp only [c1, Bool.false_eq_true, false_and, ite_false]
    exact optMapCongr (fun inv it => by split_ifs <;> omega)
  · simp only [c0, Bool.false_eq_true, false_and, ite_false]
    exact optMapCongr (fun inv it => by split_ifs <;> omega)
  · simp only [c0, c1, Bool.false_eq_true, false_and, ite_false]
    exact (optMapId (fun inv it => by omega)).symm

lemma itemComplete (it : Item) : it ∈ itemList := by
  cases it <;> simp [itemList]

lemma calculateResults_score (ws shared : List String) :
    (calculateResults ws shared).score
      = (ws.map (fun w =>
          if shared.contains w then 0 else getWordScore w.length)).sum := by
  unfold calculateResults
  simp only [List.map_map]
  congr 1

lemma sharedWords_mem (l1 l2 : List String) (x : String) :
    x ∈ sharedWords l1 l2 ↔ x ∈ l1 ∧ x ∈ l2 := by
  simp [sharedWords, List.mem_filter]

/-! ## Escrow invariant lemmas -/

lemma confSum_upd_words (g : Game) (sl : Bool) (w : Option (List String))
    (n : String) (it : Item) :
    confSum (updSlot g sl (fun p => { p with words := w })) n it
      = confSum g n it := by
  cases sl <;> simp [confSum, updSlot]

lemma confSum_upd_ready (g : Game) (sl : Bool) (n : String) (it : Item) :
    confSum (updSlot g sl (fun p => { p with ready := true })) n it
      = confSum g n it := by
  cases sl <;> simp [confSum, updSlot]

lemma confSum_upd_wager_unconfirmed (g : Game) (sl : Bool) (w : Wager)
    (hc : (g.players sl).wagerConfirmed = false) (n : String) (it : Item) :
    confSum (updSlot g sl (fun p => { p with wager := w })) n it
      = confSum g n it := by
  cases sl <;> simp [confSum, updSlot, hc]

lemma confSum_status (g : Game) (st' : Status) (n : String) (it : Item) :
    confSum { g with status := st' } n it = confSum g n it := rfl

lemma confSum_confirm (g : Game) (sl : Bool) (w : Wager)
    (hc : (g.players sl).wagerConfirmed = false) (n : String) (it : Item) :
    confSum (updSlot g sl
        (fun p => { p with wager := w, wagerConfirmed := true })) n it
      = confSum g n it + (if n = (g.players sl).name then w it else 0) := by
  cases sl <;> simp [confSum, updSlot, hc] <;> split_ifs <;> omega

lemma aliveStore_congr (st0 : Store) (g g' : Game)
    (h : ∀ n it, confSum g' n it = confSum g n it) :
    aliveStore st0 g' = aliveStore st0 g := by
  funext n
  exact optMapCongr (fun inv it => by rw [h])

lemma aliveStore_confirm (st0 : Store) (g : Game) (sl : Bool) (w : Wager)
    (hc : (g.players sl).wagerConfirmed = false) :
    storeDebit (aliveStore st0 g) ((g.players sl).name) w
      = aliveStore st0 (updSlot g sl
          (fun p => { p with wager := w, wagerConfirmed := true })) := by
  rw [storeDebit_eval]
  funext n
  show ((st0 n).map _).map _ = _
  rw [Option.map_map]
  exact optMapCongr (fun inv it => by
    simp only [Function.comp, aliveStore]
    rw [confSum_confirm g sl w hc]
    omega)

lemma refund_aliveStore (st0 : Store) (g : Game) (hex : Exact st0 g) :
    storeRefundConfirmed (aliveStore st0 g) g = st0 := by
  rw [storeRefundConfirmed_eq]
  funext n
  cases h : st0 n with
  | none => simp [aliveStore, h]
  | some inv =>
      simp only [aliveStore, h, Option.map_some', Option.map_map]
      exact congrArg some (funext fun it => by
        show inv it - confSum g n it + confSum g n it = inv it
        exact Nat.sub_add_cancel (hex n inv h it))

lemma wager_zero_of_not_hasWager (g : Game) (h : hasWagerOf g = false) :
    ∀ b it, (g.players b).wager it = 0 := by
  intro b it
  have h2 := (List.any_eq_false).mp h it (itemComplete it)
  simp only [decide_eq_true_eq, Nat.not_lt, Nat.le_zero] at h2
  unfold potOf at h2
  cases b <;> omega

lemma confSum_of_unconfZero (g : Game)
    (hz : ∀ b, (g.players b).wagerConfirmed = false →
      (g.players b).wager = zeroWager) (n : String) (it : Item) :
    confSum g n it
      = (if n = (g.players false).name then (g.players false).wager it else 0)
        + (if n = (g.players true).name then (g.players true).wager it else 0) := by
  unfold confSum
  have hv : ∀ b, (g.players b).wagerConfirmed = false →
      (g.players b).wager it = 0 := by
    intro b hb
    rw [hz b hb]
    rfl
  cases hc0 : (g.players false).wagerConfirmed <;>
  cases hc1 : (g.players true).wagerConfirmed <;>
  simp only [Bool.false_eq_true, eq_self_iff_true, false_and, true_and,
    if_false] <;>
  first
    | rfl
    | (rw [hv false hc0, hv true hc1]; split_ifs <;> omega)
    | (rw [hv false hc0]; split_ifs <;> omega)
    | (rw [hv true hc1]; split_ifs <;> omega)

lemma confSum_zero_of_not_hasWager (g : Game) (hw : hasWagerOf g = false) :
    ∀ n it, confSum g n it = 0 := by
  intro n it
  have h0 := wager_zero_of_not_hasWager g hw
  unfold confSum
  split_ifs <;> simp [h0]

/-- Settlement: finishing an alive session whose store satisfies the escrow
invariant leaves the store settled: unchanged overall (no wager, or a tie
refund), or with exactly the loser confirmed wager moved to the winner. -/
lemma finish_deadOK (st0 : Store) (g0 g : Game)
    (hnames : ∀ b, (g.players b).name = (g0.players b).name)
    (hex : Exact st0 g)
    (hz : ∀ b, (g.players b).wagerConfirmed = false →
      (g.players b).wager = zeroWager) :
    DeadOK st0 g0 (finishCore (aliveStore st0 g) g).1 := by
  cases hw : hasWagerOf g with
  | false =>
      left
      unfold finishCore
      rw [hw]
      cases winnerIxOf g <;>
      · show aliveStore st0 g = st0
        funext n
        exact optMapId (fun inv it => by
          rw [confSum_zero_of_not_hasWager g hw]
          omega)
  | true =>
      cases hwi : winnerIxOf g with
      | some i =>
          right
          refine ⟨i, (g.players !i).wager, ?_, ?_⟩
          · intro inv hinv it
            rw [← hnames (!i)] at hinv
            have hb := hex ((g.players !i).name) inv hinv it
            rw [confSum_of_unconfZero g hz] at hb
            cases i <;> split_ifs at hb <;> simp_all <;> omega
          · have hfc : (finishCore (aliveStore st0 g) g).1
                = storeCredit (aliveStore st0 g) ((g.players i).name) (potOf g) := by
              unfold finishCore
              rw [hw, hwi]
            rw [hfc, storeCredit_eval]
            funext n
            simp only [moveWager, aliveStore, Option.map_map]
            rw [← hnames i, ← hnames (!i)]
            cases hst : st0 n with
            | none => rfl
            | some inv =>
                simp only [Option.map_some']
                apply congrArg some
                funext it
                have hb := hex n inv hst it
                rw [confSum_of_unconfZero g hz] at hb
                simp only [Function.comp]
                rw [confSum_of_unconfZero g hz]
                unfold potOf
                cases i <;> simp only [Bool.not_false, Bool.not_true] <;>
                  split_ifs at hb ⊢ <;> omega
      | none =>
          left
          have hfc : (finishCore (aliveStore st0 g) g).1
              = storeCredit
                  (storeCredit (aliveStore st0 g) ((g.players false).name)
                    ((g.players false).wager))
                  ((g.players true).name) ((g.players true).wager) := by
            unfold finishCore
            rw [hw, hwi]
          rw [hfc, storeCredit_eval, storeCredit_eval]
          funext n
          simp only [aliveStore, Option.map_map]
          cases hst : st0 n with
          | none => rfl
          | some inv =>
              simp only [Option.map_some']
              apply congrArg some
              funext it
              have hb := hex n inv hst it
              rw [confSum_of_unconfZero g hz] at hb
              simp only [Function.comp]
              rw [confSum_of_unconfZero g hz]
              split_ifs at hb ⊢ <;> omega

/-- Projection of handleConfirmWager on the player slots. -/
lemma handleConfirmWager_players (st : Store) (g : Game) (sl : Bool) (w : Wager)
    (b : Bool) (hst : g.status = Status.wager) :
    (handleConfirmWager st g sl w).2.players b
      = if b = sl then
          { g.players b with wager := w, wagerConfirmed := true }
        else g.players b := by
  unfold handleConfirmWager
  rw [if_pos hst]
  show (if _ ∧ _ then _ else _ : Game).players b = _
  split <;> simp [updSlot]

/-- Projection of handleConfirmWager on the store. -/
lemma handleConfirmWager_store (st : Store) (g : Game) (sl : Bool) (w : Wager)
    (hst : g.status = Status.wager) :
    (handleConfirmWager st g sl w).1 = storeDebit st ((g.players sl).name) w := by
  unfold handleConfirmWager
  rw [if_pos hst]

lemma updSlot_name (g : Game) (sl : Bool) (f : PlayerSlot → PlayerSlot)
    (hf : ∀ p, (f p).name = p.name) (b : Bool) :
    ((updSlot g sl f).players b).name = (g.players b).name := by
  rw [updSlot_players]
  by_cases h : b = sl <;> simp [h, hf]

lemma exact_congr (st0 : Store) (g g' : Game)
    (h : ∀ n it, confSum g' n it = confSum g n it) (hex : Exact st0 g) :
    Exact st0 g' := by
  intro n inv hn it
  rw [h]
  exact hex n inv hn it

lemma exact_confirm (st0 : Store) (g : Game) (sl : Bool) (w : Wager)
    (hex : Exact st0 g) (hc : (g.players sl).wagerConfirmed = false)
    (hw : ∀ inv, aliveStore st0 g ((g.players sl).name) = some inv →
      ∀ it, w it ≤ inv it) :
    Exact st0 (updSlot g sl
      (fun p => { p with wager := w, wagerConfirmed := true })) := by
  intro n inv hn it
  rw [confSum_confirm g sl w hc]
  have hb := hex n inv hn it
  by_cases hns : n = (g.players sl).name
  · rw [if_pos hns]
    rw [hns] at hn hb ⊢
    have h2 := hw (fun it => inv it - confSum g ((g.players sl).name) it)
      (by simp only [aliveStore, hn, Option.map_some']) it
    omega
  · rw [if_neg hns]
    omega

lemma handleConfirmWager_players_eq (st : Store) (g : Game) (sl : Bool)
    (w : Wager) (hst : g.status = Status.wager) (b : Bool) :
    ((handleConfirmWager st g sl w).2).players b
      = (updSlot g sl
          (fun p => { p with wager := w, wagerConfirmed := true })).players b := by
  rw [handleConfirmWager_players st g sl w b hst, updSlot_players]

lemma confSum_players_congr (g g' : Game)
    (h : ∀ b, g'.players b = g.players b) :
    ∀ n it, confSum g' n it = confSum g n it := by
  intro n it
  unfold confSum
  rw [h false, h true]

lemma updSlot_words_fields (g : Game) (sl : Bool) (w : Option (List String))
    (b : Bool) :
    ((updSlot g sl (fun p => { p with words := w })).players b).name
        = (g.players b).name
    ∧ ((updSlot g sl (fun p => { p with words := w })).players b).wager
        = (g.players b).wager
    ∧ ((updSlot g sl (fun p => { p with words := w })).players b).wagerConfirmed
        = (g.players b).wagerConfirmed := by
  rw [updSlot_players]
  by_cases h : b = sl <;> simp [h]

/-- Transfer of the alive invariant across a game change that keeps names
and the confirmed-wager sums. -/
lemma escInv_transfer (st0 : Store) (g0 : Game) (st : Store)
    (routing routing' : List String) (g g' : Game)
    (hname : ∀ b, (g'.players b).name = (g.players b).name)
    (hcs : ∀ n it, confSum g' n it = confSum g n it)
    (hi : EscInv st0 g0 ⟨st, some g, routing⟩) :
    EscInv st0 g0 ⟨st, some g', routing'⟩ := by
  obtain ⟨hnames, hstore, hex⟩ := hi
  exact ⟨fun b => (hname b).trans (hnames b),
         hstore.trans (aliveStore_congr st0 g g' hcs).symm,
         exact_congr st0 g g' hcs hex⟩

/-- One Good step preserves the escrow invariant. -/
lemma escInv_step (st0 : Store) (g0 : Game) (s : SState) (ev : Ev)
    (hg : Good s ev) (hi : EscInv st0 g0 s) :
    EscInv st0 g0 (step s ev) := by
  obtain ⟨st, og, routing⟩ := s
  cases og with
  | none => exact hi
  | some g =>
    have hi0 := hi
    obtain ⟨hnames, hstore0, hex⟩ := hi
    have hstore : st = aliveStore st0 g := hstore0
    cases ev with
    | updateWager sl w =>
        show EscInv st0 g0 ⟨st, some (handleUpdateWager g sl w), routing⟩
        by_cases hst : g.status = Status.wager
        · have hc : (g.players sl).wagerConfirmed = false := hg hst
          unfold handleUpdateWager
          rw [if_pos hst]
          exact escInv_transfer st0 g0 st routing routing g _
            (updSlot_name g sl (fun p => { p with wager := w }) (fun p => rfl))
            (fun n it => confSum_upd_wager_unconfirmed g sl w hc n it) hi0
        · unfold handleUpdateWager
          rw [if_neg hst]
          exact hi0
    | confirmWager sl w =>
        show EscInv st0 g0
          ⟨(handleConfirmWager st g sl w).1,
           some (handleConfirmWager st g sl w).2, routing⟩
        by_cases hst : g.status = Status.wager
        · obtain ⟨hc, hwle⟩ := hg hst
          have hpe := handleConfirmWager_players_eq st g sl w hst
          have hcs := confSum_players_congr _ _ hpe
          refine ⟨fun b => ?_, ?_, ?_⟩
          · rw [hpe b,
              updSlot_name g sl
                (fun p => { p with wager := w, wagerConfirmed := true })
                (fun p => rfl) b]
            exact hnames b
          · have e1 : (handleConfirmWager st g sl w).1
                = storeDebit (aliveStore st0 g) ((g.players sl).name) w := by
              rw [handleConfirmWager_store st g sl w hst, hstore]
            show (handleConfirmWager st g sl w).1
                = aliveStore st0 (handleConfirmWager st g sl w).2
            rw [e1, aliveStore_confirm st0 g sl w hc]
            exact (aliveStore_congr st0 _ _ hcs).symm
          · exact exact_congr st0 _ _ hcs
              (exact_confirm st0 g sl w hex hc
                (by rw [← hstore]; exact hwle))
        · unfold handleConfirmWager
          rw [if_neg hst]
          exact hi0
    | leaveWager sl =>
        show DeadOK st0 g0 (storeRefundConfirmed st g)
        left
        rw [hstore]
        exact refund_aliveStore st0 g hex
    | cancelReady sl =>
        show DeadOK st0 g0 (storeRefundConfirmed st g)
        left
        rw [hstore]
        exact refund_aliveStore st0 g hex
    | playerReady sl =>
        show EscInv st0 g0 ⟨st, some (handlePlayerReady g sl), routing⟩
        by_cases hst : g.status = Status.ready
        · unfold handlePlayerReady
          rw [if_pos hst]
          by_cases hb :
              ((updSlot g sl (fun p => { p with ready := true })).players
                false).ready = true ∧
              ((updSlot g sl (fun p => { p with ready := true })).players
                true).ready = true
          · rw [if_pos hb]
            exact escInv_transfer st0 g0 st routing routing g _
              (fun b => updSlot_name g sl (fun p => { p with ready := true })
                (fun p => rfl) b)
              (fun n it => confSum_upd_ready g sl n it) hi0
          · rw [if_neg hb]
            exact escInv_transfer st0 g0 st routing routing g _
              (fun b => updSlot_name g sl (fun p => { p with ready := true })
                (fun p => rfl) b)
              (fun n it => confSum_upd_ready g sl n it) hi0
        · unfold handlePlayerReady
          rw [if_neg hst]
          exact hi0
    | countdownDone now =>
        show EscInv st0 g0 ⟨st, some (countdownComplete g now), routing⟩
        unfold countdownComplete
        by_cases hst : g.status = Status.countdown
        · rw [if_pos hst]
          exact escInv_transfer st0 g0 st routing routing g _
            (fun b => rfl) (fun n it => rfl) hi0
        · rw [if_neg hst]
          exact hi0
    | submitWords sl ws =>
        have hz : ∀ b, (g.players b).wagerConfirmed = false →
            (g.players b).wager = zeroWager := hg
        set g1 := updSlot g sl
          (fun p => { p with words := some (dedupUpper ws) }) with hg1
        have hname1 : ∀ b, (g1.players b).name = (g.players b).name :=
          fun b => (updSlot_words_fields g sl _ b).1
        have hcs1 : ∀ n it, confSum g1 n it = confSum g n it :=
          fun n it => confSum_upd_words g sl _ n it
        have hz1 : ∀ b, (g1.players b).wagerConfirmed = false →
            (g1.players b).wager = zeroWager := by
          intro b hb
          rw [(updSlot_words_fields g sl _ b).2.1]
          exact hz b (((updSlot_words_fields g sl _ b).2.2).symm.trans hb)
        have hi1 : EscInv st0 g0 ⟨st, some g1, routing⟩ :=
          escInv_transfer st0 g0 st routing routing g g1 hname1 hcs1 hi0
        obtain ⟨hnames1, hstore1p, hex1⟩ := hi1
        have hstore1 : st = aliveStore st0 g1 := hstore1p
        have hi1b : EscInv st0 g0 ⟨st, some g1, routing⟩ :=
          ⟨hnames1, hstore1p, hex1⟩
        show EscInv st0 g0
          ⟨(handleSubmitWords st g sl ws routing).1,
           (handleSubmitWords st g sl ws routing).2.1,
           (handleSubmitWords st g sl ws routing).2.2.1⟩
        unfold handleSubmitWords
        rw [← hg1]
        by_cases hboth :
            (g1.players false).words.isSome = true ∧
            (g1.players true).words.isSome = true
        · rw [if_pos hboth]
          unfold finishGame
          by_cases hfin : g1.status = Status.finished
          · rw [if_pos hfin]
            exact hi1b
          · rw [if_neg hfin]
            show DeadOK st0 g0 (finishCore st g1).1
            rw [hstore1]
            exact finish_deadOK st0 g0 g1 hnames1 hex1 hz1
        · rw [if_neg hboth]
          exact hi1b
    | forceFinish =>
        have hz : ∀ b, (g.players b).wagerConfirmed = false →
            (g.players b).wager = zeroWager := hg
        show EscInv st0 g0
          ⟨(finishGame st g routing).1, (finishGame st g routing).2.1,
           (finishGame st g routing).2.2.1⟩
        unfold finishGame
        by_cases hfin : g.status = Status.finished
        · rw [if_pos hfin]
          exact hi0
        · rw [if_neg hfin]
          show DeadOK st0 g0 (finishCore st g).1
          rw [hstore]
          exact finish_deadOK st0 g0 g hnames hex hz

/-- A Good trace preserves the escrow invariant. -/
lemma escInv_steps (st0 : Store) (g0 : Game) :
    ∀ (evs : List Ev) (s : SState), EscInv st0 g0 s → GoodTrace s evs →
      EscInv st0 g0 (steps s evs) := by
  intro evs
  induction evs with
  | nil => intro s hi _; exact hi
  | cons e es ih =>
      intro s hi hgt
      exact ih (step s e) (escInv_step st0 g0 s e hgt.1 hi) hgt.2

lemma escInv_dead (st0 : Store) (g0 : Game) (s : SState)
    (h : s.game = none) (hi : EscInv st0 g0 s) :
    DeadOK st0 g0 s.store := by
  obtain ⟨st, og, r⟩ := s
  cases og with
  | none => exact hi
  | some g => exact absurd h (by simp)

/-! ## Concrete fixtures used by witnesses and counterexamples -/

/-- A slot for a registered player named A. -/
def slotA : PlayerSlot :=
  { id := "p0", name := "A", words := none, connected := true
    wager := zeroWager, wagerConfirmed := false, ready := false }

/-- A slot for a registered player named B. -/
def slotB : PlayerSlot :=
  { id := "p1", name := "B", words := none, connected := true
    wager := zeroWager, wagerConfirmed := false, ready := false }

/-- A fresh two-player game in a given phase. -/
def mkGame (st : Status) : Game :=
  { players := fun b => if b then slotB else slotA
    status := st, wagerMode := true, endTime := none
    paused := false, pausedAt := none, pausedTimeRemaining := none }

/-- A store where A holds one gold coin and B holds five silver coins. -/
def stAB : Store := fun n =>
  if n = "A" then some (fun it => if it = Item.gold_coin then 1 else 0)
  else if n = "B" then some (fun it => if it = Item.silver_coin then 5 else 0)
  else none

/-- A wager of two gold coins. -/
def wTwoGold : Wager := fun it => if it = Item.gold_coin then 2 else 0

/-- A wager of one gold coin. -/
def wOneGold : Wager := fun it => if it = Item.gold_coin then 1 else 0

/-! ## C1: the wager escrow discipline over whole session lifetimes -/

/-- C1 counterexample, refuting the claim as stated: player A holds one
gold coin and confirms a wager of two (the code debits only the clamped
one, so the exact confirmed map was never debited); a leave_wager then
re-credits the full two-coin map.  Across confirm-then-refund A nets one
gold coin out of thin air, so the claimed invariant (exact map debited at
confirm, then re-credited or paid out exactly once) fails on the code. -/
theorem escrow_exactly_once_counterexample :
    ((stAB "A").map (fun inv => inv Item.gold_coin) = some 1) ∧
    (((steps ⟨stAB, some (mkGame Status.wager), ["p0", "p1"]⟩
        [Ev.confirmWager false wTwoGold, Ev.leaveWager false]).store "A").map
          (fun inv => inv Item.gold_coin) = some 2) := by
  exact ⟨rfl, by decide⟩

/-- C1 amended: for registered players, over any session lifetime in which
every confirm stays within current holdings, no slot confirms twice or
changes its wager after confirming, and no unconfirmed non-zero wager
reaches settlement (the Good side conditions), when the session is
destroyed the store is settled exactly once: it is restored to the initial
store (refund on leave/cancel, tie return, or no wager), or exactly one
bounded wager map has moved from the loser to the winner — never both,
never neither, and never an amount that was not debited. -/
theorem wager_escrow_exactly_once (st0 : Store) (g0 : Game)
    (routing : List String) (evs : List Ev)
    (hreg : ∀ b, (st0 ((g0.players b).name)).isSome)
    (hfresh : ∀ b, (g0.players b).wagerConfirmed = false)
    (hgood : GoodTrace ⟨st0, some g0, routing⟩ evs)
    (hdead : (steps ⟨st0, some g0, routing⟩ evs).game = none) :
    DeadOK st0 g0 (steps ⟨st0, some g0, routing⟩ evs).store := by
  have hcz : ∀ n it, confSum g0 n it = 0 := by
    intro n it
    unfold confSum
    rw [hfresh false, hfresh true]
    simp
  have hinit : EscInv st0 g0 ⟨st0, some g0, routing⟩ := by
    refine ⟨fun b => rfl, ?_, ?_⟩
    · funext n
      exact (optMapId (fun inv it => by rw [hcz]; omega)).symm
    · intro n inv hn it
      rw [hcz]
      exact Nat.zero_le _
  exact escInv_dead st0 g0 _ hdead (escInv_steps st0 g0 evs _ hinit hgood)

/-- Witness for the amended C1 theorem: A confirms a one-gold wager within
holdings and then leaves; the trace is Good, the session dies, and the
store is settled (here: restored to the initial store). -/
theorem wager_escrow_exactly_once_witness :
    ((∀ b, (stAB (((mkGame Status.wager).players b).name)).isSome) ∧
     (∀ b, ((mkGame Status.wager).players b).wagerConfirmed = false) ∧
     GoodTrace ⟨stAB, some (mkGame Status.wager), ["p0", "p1"]⟩
       [Ev.confirmWager false wOneGold, Ev.leaveWager false] ∧
     (steps ⟨stAB, some (mkGame Status.wager), ["p0", "p1"]⟩
       [Ev.confirmWager false wOneGold, Ev.leaveWager false]).game = none) ∧
    DeadOK stAB (mkGame Status.wager)
      (steps ⟨stAB, some (mkGame Status.wager), ["p0", "p1"]⟩
        [Ev.confirmWager false wOneGold, Ev.leaveWager false]).store := by
  have hgood : GoodTrace ⟨stAB, some (mkGame Status.wager), ["p0", "p1"]⟩
      [Ev.confirmWager false wOneGold, Ev.leaveWager false] := by
    refine ⟨fun _ => ⟨rfl, fun inv hinv it => ?_⟩, trivial, trivial⟩
    have hinv2 : (fun it => if it = Item.gold_coin then 1 else 0 : Inv) = inv :=
      Option.some.inj hinv
    rw [← hinv2]
    cases it <;> decide
  refine ⟨⟨fun b => by cases b <;> decide, fun b => by cases b <;> rfl,
           hgood, rfl⟩, ?_⟩
  exact wager_escrow_exactly_once stAB (mkGame Status.wager) ["p0", "p1"]
    [Ev.confirmWager false wOneGold, Ev.leaveWager false]
    (fun b => by cases b <;> decide) (fun b => by cases b <;> rfl)
    hgood rfl

/-! ## C5: shared-word cancellation and length-table scoring -/

/-- C5: for any two word lists, both totals of calculateResults equal the
sum over the own list of a per-word contribution that is 0 on the
intersection and the length-table value getWordScore elsewhere. -/
theorem scoring_shared_cancellation (l1 l2 : List String) :
    ((calculateResults l1 (sharedWords l1 l2)).score
        = (l1.map (fun w =>
            if w ∈ l1 ∧ w ∈ l2 then 0 else getWordScore w.length)).sum)
  ∧ ((calculateResults l2 (sharedWords l1 l2)).score
        = (l2.map (fun w =>
            if w ∈ l1 ∧ w ∈ l2 then 0 else getWordScore w.length)).sum) := by
  have hc : ∀ w, ((sharedWords l1 l2).contains w = true) ↔ (w ∈ l1 ∧ w ∈ l2) := by
    intro w
    rw [List.elem_iff, sharedWords_mem]
  constructor <;>
  · rw [calculateResults_score]
    congr 1
    apply List.map_congr_left
    intro w _
    by_cases h : w ∈ l1 ∧ w ∈ l2
    · rw [if_pos ((hc w).mpr h), if_pos h]
    · rw [if_neg (fun hh => h ((hc w).mp hh)), if_neg h]

/-! ## C9: the stuck-match hard timeout -/

/-- C9 counterexample: the guard timer of startCountdownPhase is scheduled
(GAME_TIME + 15) * 1000 + countdownSeconds * 1000 = 198000 ms after entry
to the countdown phase, not (round length + 15 s) = 195000 ms as claimed. -/
theorem hard_timeout_delay_counterexample :
    stuckGuardDelayMs ≠ (GAME_TIME + 15) * 1000 := by decide

/-- C9 amended: the hard timeout fires (countdown length + round length +
15 s) after entry to the countdown phase, and when it fires on a session
that has not reached the finished phase it force-finishes and deletes it,
regardless of the current phase. -/
theorem hard_timeout_force_finish (st : Store) (g : Game) (routing : List String)
    (h : g.status ≠ Status.finished) :
    stuckGuardDelayMs = (countdownSeconds + GAME_TIME + 15) * 1000 ∧
    (stuckGuardFire st g routing).2.1 = none := by
  refine ⟨by decide, ?_⟩
  simp [stuckGuardFire, finishGame, h]

/-- Witness for the amended C9 theorem at a concrete countdown-phase game. -/
theorem hard_timeout_force_finish_witness :
    (mkGame Status.countdown).status ≠ Status.finished ∧
    (stuckGuardDelayMs = (countdownSeconds + GAME_TIME + 15) * 1000 ∧
     (stuckGuardFire stAB (mkGame Status.countdown) []).2.1 = none) :=
  ⟨by decide, hard_timeout_force_finish stAB (mkGame Status.countdown) [] (by decide)⟩

/-! ## C7: pause snapshot restored on reconnect and resume -/

/-- C7: pausing an unpaused game with a live end timestamp records the
snapshot (e - tPause) / 1000; a reconnect while paused reports exactly that
snapshot as timeRemaining; the resume completion restores exactly that
remaining time (so resumed time equals, in particular never exceeds, the
time at pause). -/
theorem pause_reconnect_resume_time (g : Game) (e tPause tRec tResume : Nat)
    (hp : g.paused = false) (he : g.endTime = some e) :
    (pauseGame g tPause).pausedTimeRemaining = some ((e - tPause) / 1000) ∧
    reconnectTimeRemaining (pauseGame g tPause) tRec = (e - tPause) / 1000 ∧
    resumedTimeRemaining (pauseGame g tPause) = (e - tPause) / 1000 ∧
    liveRemaining (resumeComplete (pauseGame g tPause) tResume) tResume
      = (e - tPause) / 1000 ∧
    reconnectTimeRemaining (pauseGame g tPause) tRec ≤ (e - tPause) / 1000 := by
  have h1 : pauseGame g tPause
      = { g with paused := true, pausedAt := some tPause
                 pausedTimeRemaining := some ((e - tPause) / 1000) } := by
    simp [pauseGame, hp, he]
  refine ⟨?_, ?_, ?_, ?_, ?_⟩ <;>
    simp [h1, reconnectTimeRemaining, resumedTimeRemaining, resumeComplete,
          liveRemaining]

/-! ## C2: confirm_wager never fails on insufficient holdings -/

/-- C2 counterexample: player A holds one gold coin and confirms a wager of
two gold coins in the wager phase.  The claim says the confirm fails with
InsufficientItems, nothing is debited and the confirmed flags stay
unchanged; the code instead marks A confirmed and clamps the inventory to
zero gold (a short debit of one coin). -/
theorem confirm_wager_insufficient_counterexample :
    (wTwoGold Item.gold_coin = 2 ∧
     (stAB "A").map (fun inv => inv Item.gold_coin) = some 1) ∧
    (((handleConfirmWager stAB (mkGame Status.wager) false wTwoGold).2.players
        false).wagerConfirmed = true) ∧
    (((handleConfirmWager stAB (mkGame Status.wager) false wTwoGold).1 "A").map
        (fun inv => inv Item.gold_coin) = some 0) := by
  refine ⟨⟨rfl, rfl⟩, ?_, ?_⟩ <;> decide

/-- C2 amended: a confirm_wager in the wager phase never fails: the player
is marked confirmed unconditionally, the slot wager becomes the message
wager, the opponent confirmed flag is untouched, and the inventory of the
confirming player is debited per item by min(wagered, holdings), i.e.
clamped-at-zero subtraction; when every wagered count is at most the
holdings this is exactly the wagered amount. -/
theorem confirm_wager_clamped_debit (st : Store) (g : Game) (sl : Bool)
    (w : Wager) (inv : Inv) (hst : g.status = Status.wager)
    (hreg : st ((g.players sl).name) = some inv) :
    (((handleConfirmWager st g sl w).2.players sl).wagerConfirmed = true) ∧
    (((handleConfirmWager st g sl w).2.players sl).wager = w) ∧
    ((handleConfirmWager st g sl w).1 ((g.players sl).name)
        = some (fun it => inv it - w it)) ∧
    (((handleConfirmWager st g sl w).2.players (!sl)).wagerConfirmed
        = (g.players (!sl)).wagerConfirmed) ∧
    ((∀ it, w it ≤ inv it) → ∀ it, (inv it - w it) + w it = inv it) := by
  refine ⟨?_, ?_, ?_, ?_, fun hle it => Nat.sub_add_cancel (hle it)⟩
  · rw [handleConfirmWager_players st g sl w sl hst]; simp
  · rw [handleConfirmWager_players st g sl w sl hst]; simp
  · rw [handleConfirmWager_store st g sl w hst, storeDebit_eval]
    simp [hreg, clampDebit]
  · rw [handleConfirmWager_players st g sl w (!sl) hst]
    simp [Bool.not_ne_self]

/-- Witness for the amended C2 theorem: player B confirms a one-gold wager
(B holds no gold, the debit clamps to zero; the within-holdings clause is
exercised by the silver coins B does hold). -/
theorem confirm_wager_clamped_debit_witness :
    ((mkGame Status.wager).status = Status.wager ∧
     stAB (((mkGame Status.wager).players false).name)
        = some (fun it => if it = Item.gold_coin then 1 else 0)) ∧
    ((((handleConfirmWager stAB (mkGame Status.wager) false wOneGold).2.players
        false).wagerConfirmed = true) ∧
     (((handleConfirmWager stAB (mkGame Status.wager) false wOneGold).2.players
        false).wager = wOneGold) ∧
     ((handleConfirmWager stAB (mkGame Status.wager) false wOneGold).1
        (((mkGame Status.wager).players false).name)
        = some (fun it =>
            (if it = Item.gold_coin then 1 else 0) - wOneGold it)) ∧
     (((handleConfirmWager stAB (mkGame Status.wager) false wOneGold).2.players
        (!false)).wagerConfirmed
        = ((mkGame Status.wager).players (!false)).wagerConfirmed) ∧
     ((∀ it, wOneGold it ≤ (if it = Item.gold_coin then 1 else 0)) →
       ∀ it, ((if it = Item.gold_coin then 1 else 0) - wOneGold it) + wOneGold it
         = (if it = Item.gold_coin then 1 else 0))) :=
  ⟨⟨rfl, rfl⟩,
   confirm_wager_clamped_debit stAB (mkGame Status.wager) false wOneGold
     (fun it => if it = Item.gold_coin then 1 else 0) rfl rfl⟩

/-! ## C10: leave_wager is processed in every phase -/

/-- C10: a leave_wager for an existing session is processed whatever the
phase: for a session in countdown or active (or paused), it refunds, at
every store name, exactly the confirmed wagers owned by that name, notifies
the connected opponent with opponent_cancelled_wager, deletes the session
and removes both routing entries; the store change is the refund alone
(no pot settlement, no scoring). -/
theorem leave_wager_any_phase (st : Store) (g : Game) (sl : Bool)
    (routing : List String)
    (hph : g.status = Status.countdown ∨ g.status = Status.active ∨
           g.paused = true)
    (hconn : (g.players (!sl)).connected = true) :
    (handleLeaveWager st g sl routing).2.1 = none ∧
    ((g.players false).id ∉ (handleLeaveWager st g sl routing).2.2.1 ∧
     (g.players true).id ∉ (handleLeaveWager st g sl routing).2.2.1) ∧
    ((handleLeaveWager st g sl routing).1
        = fun n => (st n).map (fun inv it => inv it + confSum g n it)) ∧
    (handleLeaveWager st g sl routing).2.2.2
        = [(!sl, Msg.opponentCancelledWager)] := by
  refine ⟨rfl, ⟨?_, ?_⟩, ?_, ?_⟩
  · simp [handleLeaveWager, dropRouting, List.mem_filter]
  · simp [handleLeaveWager, dropRouting, List.mem_filter]
  · show storeRefundConfirmed st g = _
    exact storeRefundConfirmed_eq st g
  · simp [handleLeaveWager, hconn]

/-- Witness for C10: player A leaves from the countdown phase after having
confirmed a one-gold wager. -/
theorem leave_wager_any_phase_witness :
    (((updSlot (mkGame Status.countdown) false
        (fun p => { p with wager := wOneGold, wagerConfirmed := true })).status
          = Status.countdown ∨
      (updSlot (mkGame Status.countdown) false
        (fun p => { p with wager := wOneGold, wagerConfirmed := true })).status
          = Status.active ∨
      (updSlot (mkGame Status.countdown) false
        (fun p => { p with wager := wOneGold, wagerConfirmed := true })).paused
          = true) ∧
     ((updSlot (mkGame Status.countdown) false
        (fun p => { p with wager := wOneGold, wagerConfirmed := true })).players
          (!false)).connected = true) ∧
    ((handleLeaveWager stAB
        (updSlot (mkGame Status.countdown) false
          (fun p => { p with wager := wOneGold, wagerConfirmed := true }))
        false ["p0", "p1"]).2.1 = none ∧
     (((updSlot (mkGame Status.countdown) false
          (fun p => { p with wager := wOneGold, wagerConfirmed := true })).players
            false).id ∉
        (handleLeaveWager stAB
          (updSlot (mkGame Status.countdown) false
            (fun p => { p with wager := wOneGold, wagerConfirmed := true }))
          false ["p0", "p1"]).2.2.1 ∧
      ((updSlot (mkGame Status.countdown) false
          (fun p => { p with wager := wOneGold, wagerConfirmed := true })).players
            true).id ∉
        (handleLeaveWager stAB
          (updSlot (mkGame Status.countdown) false
            (fun p => { p with wager := wOneGold, wagerConfirmed := true }))
          false ["p0", "p1"]).2.2.1) ∧
     ((handleLeaveWager stAB
        (updSlot (mkGame Status.countdown) false
          (fun p => { p with wager := wOneGold, wagerConfirmed := true }))
        false ["p0", "p1"]).1
        = fun n => (stAB n).map (fun inv it =>
            inv it + confSum
              (updSlot (mkGame Status.countdown) false
                (fun p => { p with wager := wOneGold, wagerConfirmed := true }))
              n it)) ∧
     (handleLeaveWager stAB
        (updSlot (mkGame Status.countdown) false
          (fun p => { p with wager := wOneGold, wagerConfirmed := true }))
        false ["p0", "p1"]).2.2.2
        = [(!false, Msg.opponentCancelledWager)]) :=
  ⟨⟨Or.inl rfl, rfl⟩,
   leave_wager_any_phase stAB
     (updSlot (mkGame Status.countdown) false
       (fun p => { p with wager := wOneGold, wagerConfirmed := true }))
     false ["p0", "p1"] (Or.inl rfl) rfl⟩

/-! ## C8: find_game queueing -/

/-- C8: a find_game request is rejected while the requester waits in either
queue or is routed to a session; otherwise a non-empty target queue is
popped at its head (the oldest waiter, strict FIFO) and both players become
routed, and an empty target queue receives the requester at its back with a
searching acknowledgement. -/
theorem find_game_fifo (qs : QueueState) (pid : String) (mode : Bool) :
    ((pid ∈ qs.casual ∨ pid ∈ qs.wager) →
        handleFindGame qs pid mode = (FindOutcome.alreadySearching, qs)) ∧
    (pid ∉ qs.casual → pid ∉ qs.wager → pid ∈ qs.inSession →
        handleFindGame qs pid mode = (FindOutcome.alreadyInGame, qs)) ∧
    (∀ opp rest, pid ∉ qs.casual → pid ∉ qs.wager → pid ∉ qs.inSession →
        (if mode then qs.wager else qs.casual) = opp :: rest →
        ((handleFindGame qs pid mode).1 = FindOutcome.matched opp ∧
         (if mode then (handleFindGame qs pid mode).2.wager
          else (handleFindGame qs pid mode).2.casual) = rest ∧
         (handleFindGame qs pid mode).2.inSession = pid :: opp :: qs.inSession)) ∧
    (pid ∉ qs.casual → pid ∉ qs.wager → pid ∉ qs.inSession →
        (if mode then qs.wager else qs.casual) = [] →
        ((handleFindGame qs pid mode).1 = FindOutcome.searching ∧
         (if mode then (handleFindGame qs pid mode).2.wager
          else (handleFindGame qs pid mode).2.casual)
            = (if mode then qs.wager else qs.casual) ++ [pid] ∧
         (handleFindGame qs pid mode).2.inSession = qs.inSession)) := by
  refine ⟨?_, ?_, ?_, ?_⟩
  · intro h
    simp [handleFindGame, h]
  · intro h1 h2 h3
    simp [handleFindGame, h1, h2, h3]
  · intro opp rest h1 h2 h3 hq
    cases mode <;> simp_all [handleFindGame]
  · intro h1 h2 h3 hq
    cases mode <;> simp_all [handleFindGame]

/-- Witness for C8: with A waiting alone in the casual queue, an arriving B
is matched with A (the head), the queue empties and both become routed. -/
theorem find_game_fifo_witness :
    (("B" : String) ∉ (["A"] : List String) ∧
     ("B" : String) ∉ ([] : List String) ∧
     (if false then ([] : List String) else ["A"]) = "A" :: []) ∧
    ((handleFindGame ⟨["A"], [], []⟩ "B" false).1 = FindOutcome.matched "A" ∧
     (if false then (handleFindGame ⟨["A"], [], []⟩ "B" false).2.wager
      else (handleFindGame ⟨["A"], [], []⟩ "B" false).2.casual) = [] ∧
     (handleFindGame ⟨["A"], [], []⟩ "B" false).2.inSession
        = "B" :: "A" :: ([] : List String)) :=
  ⟨⟨by decide, by decide, rfl⟩,
   (find_game_fifo ⟨["A"], [], []⟩ "B" false).2.2.1 "A" []
     (by decide) (by decide) (by decide) rfl⟩

/-! ## C4: submit_words stores dedup-uppercased words, last write wins -/

lemma mem_jsSetDedupAux (x : String) (l : List String) :
    ∀ seen, x ∈ jsSetDedupAux seen l ↔ x ∈ l ∧ x ∉ seen := by
  induction l with
  | nil => intro seen; simp [jsSetDedupAux]
  | cons a l ih =>
      intro seen
      by_cases ha : seen.contains a = true
      · rw [jsSetDedupAux, if_pos ha, ih]
        rw [List.elem_iff] at ha
        simp only [List.mem_cons]
        constructor
        · rintro ⟨hx, hs⟩; exact ⟨Or.inr hx, hs⟩
        · rintro ⟨hor, hs⟩
          rcases hor with rfl | hx
          · exact absurd ha hs
          · exact ⟨hx, hs⟩
      · rw [jsSetDedupAux, if_neg ha, List.mem_cons, ih]
        rw [List.elem_iff] at ha
        simp only [List.mem_cons, List.mem_cons]
        by_cases hxa : x = a
        · subst hxa; simp [ha]
        · simp [hxa]

lemma nodup_jsSetDedupAux (l : List String) :
    ∀ seen, (jsSetDedupAux seen l).Nodup := by
  induction l with
  | nil => intro seen; simp [jsSetDedupAux]
  | cons a l ih =>
      intro seen
      by_cases ha : seen.contains a = true
      · rw [jsSetDedupAux, if_pos ha]; exact ih seen
      · rw [jsSetDedupAux, if_neg ha]
        refine List.nodup_cons.mpr ⟨?_, ih (a :: seen)⟩
        rw [mem_jsSetDedupAux]
        simp

lemma mem_jsSetDedup (x : String) (l : List String) :
    x ∈ jsSetDedup l ↔ x ∈ l := by
  rw [jsSetDedup, mem_jsSetDedupAux]
  simp

lemma nodup_jsSetDedup (l : List String) : (jsSetDedup l).Nodup :=
  nodup_jsSetDedupAux l []

lemma mem_dedupUpper (ws : List String) (x : String) :
    x ∈ dedupUpper ws ↔ ∃ v ∈ ws, x = jsToUpper v := by
  simp only [dedupUpper, mem_jsSetDedup, List.mem_map]
  constructor
  · rintro ⟨v, hv, rfl⟩
    exact ⟨v, hv, rfl⟩
  · rintro ⟨v, hv, rfl⟩
    exact ⟨v, hv, rfl⟩

/-- C4 counterexample: a session where slot 0 already submitted CAB and
slot 1 has not submitted.  A second submit_words from slot 0 with ABC is
not rejected: the stored submission becomes ABC, the first does not stand. -/
theorem submit_words_second_counterexample :
    (((updSlot (mkGame Status.active) false
        (fun p => { p with words := some ["CAB"] })).players false).words
          = some ["CAB"]) ∧
    ((handleSubmitWords stAB
        (updSlot (mkGame Status.active) false
          (fun p => { p with words := some ["CAB"] }))
        false ["ABC"] []).2.1.map (fun g1 => (g1.players false).words)
          = some (some ["ABC"])) ∧
    ((handleSubmitWords stAB
        (updSlot (mkGame Status.active) false
          (fun p => { p with words := some ["CAB"] }))
        false ["ABC"] []).2.1.map (fun g1 => (g1.players false).words)
          ≠ some (some ["CAB"])) := by
  refine ⟨rfl, ?_, ?_⟩ <;> decide

/-- C4 amended: handleSubmitWords overwrites the slot submission
unconditionally (a repeated submit_words replaces the earlier list — last
write wins), storing the uppercased, first-occurrence-deduplicated list;
while the opponent has not submitted, the session stays alive with exactly
that stored list. -/
theorem submit_words_overwrite_semantics (st : Store) (g : Game) (sl : Bool)
    (ws : List String) (routing : List String)
    (hother : (g.players (!sl)).words = none) :
    ((handleSubmitWords st g sl ws routing).2.1
        = some (updSlot g sl (fun p => { p with words := some (dedupUpper ws) }))) ∧
    (((updSlot g sl (fun p => { p with words := some (dedupUpper ws) })).players
        sl).words = some (dedupUpper ws)) ∧
    (dedupUpper ws).Nodup ∧
    (∀ x, x ∈ dedupUpper ws ↔ ∃ v ∈ ws, x = jsToUpper v) := by
  refine ⟨?_, by simp [updSlot], nodup_jsSetDedup _, fun x => mem_dedupUpper ws x⟩
  have hup : ((updSlot g sl
      (fun p => { p with words := some (dedupUpper ws) })).players (!sl)).words
        = none := by
    rw [updSlot_players]
    simp [hother]
  unfold handleSubmitWords
  rw [if_neg]
  intro hcon
  cases sl with
  | false =>
      rw [show (!false) = true from rfl] at hup
      rw [hup] at hcon
      exact absurd hcon.2 (by simp)
  | true =>
      rw [show (!true) = false from rfl] at hup
      rw [hup] at hcon
      exact absurd hcon.1 (by simp)

/-- Witness for the amended C4 theorem: slot 0 submits over an empty
opponent slot. -/
theorem submit_words_overwrite_semantics_witness :
    (((mkGame Status.active).players (!false)).words = none) ∧
    (((handleSubmitWords stAB (mkGame Status.active) false ["CAB", "cab"] []).2.1
        = some (updSlot (mkGame Status.active) false
            (fun p => { p with words := some (dedupUpper ["CAB", "cab"]) }))) ∧
     (((updSlot (mkGame Status.active) false
          (fun p => { p with words := some (dedupUpper ["CAB", "cab"]) })).players
            false).words = some (dedupUpper ["CAB", "cab"])) ∧
     (dedupUpper ["CAB", "cab"]).Nodup ∧
     (∀ x, x ∈ dedupUpper ["CAB", "cab"] ↔ ∃ v ∈ ["CAB", "cab"], x = jsToUpper v)) :=
  ⟨rfl,
   submit_words_overwrite_semantics stAB (mkGame Status.active) false
     ["CAB", "cab"] [] rfl⟩

/-! ## C6: grace-period expiry scoring -/

/-- The scored results a finishCore carries are exactly resultOf. -/
lemma finishCore_r (st : Store) (g : Game) (b : Bool) :
    (finishCore st g).2.r b = resultOf g b := by
  unfold finishCore FinishInfo.r
  cases hw : hasWagerOf g <;> cases hwi : winnerIxOf g <;> cases b <;> rfl

/-- C6: when the grace timer of a disconnected player expires on an
unfinished session, the session is force-finished and deleted, the game_end
scores come from the stored word lists, a never-submitted side is scored as
the empty list with total 0, and the surviving submission is scored with no
shared-word cancellation (the shared set with an empty list is empty). -/
theorem grace_expiry_scores (st : Store) (g : Game) (routing : List String)
    (d : Bool) (hnf : g.status ≠ Status.finished)
    (hmiss : (g.players d).words = none) :
    ((graceExpire st g routing).2.1 = none) ∧
    ((graceExpire st g routing).2.2.2 = some (finishCore st g).2) ∧
    (((finishCore st g).2.r d).score = 0) ∧
    (((finishCore st g).2.r (!d)).score
        = ((wordsOf g (!d)).map (fun w => getWordScore w.length)).sum) := by
  have hwd : wordsOf g d = [] := by simp [wordsOf, hmiss]
  have hshared : sharedOf g = [] := by
    cases d with
    | false => simp [sharedOf, sharedWords, hwd]
    | true => simp [sharedOf, sharedWords, hwd]
  refine ⟨?_, ?_, ?_, ?_⟩
  · simp [graceExpire, finishGame, hnf]
  · simp [graceExpire, finishGame, hnf]
  · rw [finishCore_r]
    unfold resultOf
    rw [hshared, hwd]
    rfl
  · rw [finishCore_r]
    unfold resultOf
    rw [hshared, calculateResults_score]
    congr 1

/-- Witness for C6: slot 1 submitted CAB, slot 0 disconnected without
submitting; expiry scores 0 for slot 0 and the 3-letter value 1 for CAB. -/
theorem grace_expiry_scores_witness :
    ((updSlot (mkGame Status.active) true
        (fun p => { p with words := some ["CAB"] })).status ≠ Status.finished ∧
     (((updSlot (mkGame Status.active) true
        (fun p => { p with words := some ["CAB"] })).players false).words = none)) ∧
    (((graceExpire stAB
        (updSlot (mkGame Status.active) true
          (fun p => { p with words := some ["CAB"] })) []).2.1 = none) ∧
     ((graceExpire stAB
        (updSlot (mkGame Status.active) true
          (fun p => { p with words := some ["CAB"] })) []).2.2.2
        = some (finishCore stAB
            (updSlot (mkGame Status.active) true
              (fun p => { p with words := some ["CAB"] }))).2) ∧
     (((finishCore stAB
          (updSlot (mkGame Status.active) true
            (fun p => { p with words := some ["CAB"] }))).2.r false).score = 0) ∧
     (((finishCore stAB
          (updSlot (mkGame Status.active) true
            (fun p => { p with words := some ["CAB"] }))).2.r (!false)).score
        = ((wordsOf
              (updSlot (mkGame Status.active) true
                (fun p => { p with words := some ["CAB"] })) (!false)).map
            (fun w => getWordScore w.length)).sum)) :=
  ⟨⟨by decide, rfl⟩,
   grace_expiry_scores stAB
     (updSlot (mkGame Status.active) true
       (fun p => { p with words := some ["CAB"] })) [] false (by decide) rfl⟩

/-! ## C3: pot settlement at game end -/

/-- C3: for a finishing session with at least one non-zero wagered item,
the pot is the per-item-kind sum of both wager maps; with a strictly
greater total score the whole pot is credited to the winner in one batch
and nothing else changes in the store; with equal totals each player is
instead credited exactly their own wager map back; the two settlements are
mutually exclusive, selected by the winner determination. -/
theorem wager_settlement (st : Store) (g : Game)
    (hreg0 : (st ((g.players false).name)).isSome)
    (hreg1 : (st ((g.players true).name)).isSome)
    (hw : hasWagerOf g = true) :
    (∀ it, potOf g it
        = (g.players false).wager it + (g.players true).wager it) ∧
    (∀ i, winnerIxOf g = some i →
        ((finishCore st g).1
            = (fun n => (st n).map (fun inv it =>
                inv it + (if n = (g.players i).name then potOf g it else 0)))) ∧
        (winnerIxOf g = some i →
         (finishCore st g).2.wagerResult
            = some { winner := some ((g.players i).name), pot := potOf g
                     returned := false })) ∧
    (winnerIxOf g = none →
        ((finishCore st g).1
            = (fun n => (st n).map (fun inv it => inv it +
                ((if n = (g.players false).name then
                    (g.players false).wager it else 0) +
                 (if n = (g.players true).name then
                    (g.players true).wager it else 0)))))) ∧
    (winnerIxOf g = none →
         (finishCore st g).2.wagerResult
            = some { winner := none, pot := potOf g, returned := true }) ∧
    (winnerIxOf g = some false ↔
        (resultOf g true).score < (resultOf g false).score) ∧
    (winnerIxOf g = some true ↔
        (resultOf g false).score < (resultOf g true).score) ∧
    (winnerIxOf g = none ↔
        (resultOf g false).score = (resultOf g true).score) := by
  refine ⟨fun it => rfl, ?_, ?_, ?_, ?_, ?_, ?_⟩
  · intro i hwi
    refine ⟨?_, fun _ => ?_⟩
    · unfold finishCore
      rw [hw, hwi]
      exact storeCredit_eval st ((g.players i).name) (potOf g)
    · unfold finishCore
      rw [hw, hwi]
  · intro hwi
    unfold finishCore
    rw [hw, hwi]
    rw [storeCredit_eval, storeCredit_eval]
    funext n
    simp only [Option.map_map]
    exact optMapCongr (fun inv it => by
      simp only [Function.comp]
      split_ifs <;> omega)
  · intro hwi
    unfold finishCore
    rw [hw, hwi]
  · unfold winnerIxOf
    split_ifs with h1 h2
    · simpa using h1
    · simpa using h1
    · simpa using h1
  · unfold winnerIxOf
    split_ifs with h1 h2
    · simp
      omega
    · simpa using h2
    · simpa using h2
  · unfold winnerIxOf
    split_ifs with h1 h2
    · simp
      omega
    · simp
      omega
    · simp
      omega

/-- A finished-bound game where slot 0 confirmed a one-gold wager and
nobody submitted words: a tie with a non-empty pot. -/
def gTie : Game :=
  updSlot (mkGame Status.active) false
    (fun p => { p with wager := wOneGold, wagerConfirmed := true })

/-- Witness for C3 at the concrete tie fixture gTie. -/
theorem wager_settlement_witness :
    ((stAB ((gTie.players false).name)).isSome ∧
     (stAB ((gTie.players true).name)).isSome ∧
     hasWagerOf gTie = true) ∧
    ((∀ it, potOf gTie it
        = (gTie.players false).wager it + (gTie.players true).wager it) ∧
     (∀ i, winnerIxOf gTie = some i →
        ((finishCore stAB gTie).1
            = (fun n => (stAB n).map (fun inv it =>
                inv it + (if n = (gTie.players i).name then potOf gTie it else 0)))) ∧
        (winnerIxOf gTie = some i →
         (finishCore stAB gTie).2.wagerResult
            = some { winner := some ((gTie.players i).name), pot := potOf gTie
                     returned := false })) ∧
     (winnerIxOf gTie = none →
        ((finishCore stAB gTie).1
            = (fun n => (stAB n).map (fun inv it => inv it +
                ((if n = (gTie.players false).name then
                    (gTie.players false).wager it else 0) +
                 (if n = (gTie.players true).name then
                    (gTie.players true).wager it else 0)))))) ∧
     (winnerIxOf gTie = none →
         (finishCore stAB gTie).2.wagerResult
            = some { winner := none, pot := potOf gTie, returned := true }) ∧
     (winnerIxOf gTie = some false ↔
        (resultOf gTie true).score < (resultOf gTie false).score) ∧
     (winnerIxOf gTie = some true ↔
        (resultOf gTie false).score < (resultOf gTie true).score) ∧
     (winnerIxOf gTie = none ↔
        (resultOf gTie false).score = (resultOf gTie true).score)) :=
  ⟨⟨by decide, by decide, by decide⟩,
   wager_settlement stAB gTie (by decide) (by decide) (by decide)⟩

/-- Witness for C7 at a concrete active game paused at 50000 ms with end
timestamp 200000 ms. -/
theorem pause_reconnect_resume_time_witness :
    ({ mkGame Status.active with endTime := some 200000 } : Game).paused = false ∧
    ((pauseGame { mkGame Status.active with endTime := some 200000 } 50000).pausedTimeRemaining
        = some ((200000 - 50000) / 1000) ∧
     reconnectTimeRemaining
        (pauseGame { mkGame Status.active with endTime := some 200000 } 50000) 60000
        = (200000 - 50000) / 1000 ∧
     resumedTimeRemaining
        (pauseGame { mkGame Status.active with endTime := some 200000 } 50000)
        = (200000 - 50000) / 1000 ∧
     liveRemaining
        (resumeComplete
          (pauseGame { mkGame Status.active with endTime := some 200000 } 50000) 70000)
        70000
        = (200000 - 50000) / 1000 ∧
     reconnectTimeRemaining
        (pauseGame { mkGame Status.active with endTime := some 200000 } 50000) 60000
        ≤ (200000 - 50000) / 1000) :=
  ⟨by decide,
   pause_reconnect_resume_time _ 200000 50000 60000 70000 (by decide) rfl⟩

end Ylem
